import Mathlib

/-!
# Verification of the telegram-bot-scheduler scheduling engine

A shallow embedding of the scheduling engine of this repository
(`app/scheduler.py`, `app/models.py`, `app/schemas.py`, `app/main.py`) and
proofs about it.

Modelling conventions, used throughout:

* A UTC instant (Python timezone-aware `datetime`) is an `Int`, the number of
  seconds since an arbitrary epoch.  `timedelta(minutes=m)` is `60 * m`
  seconds.  Comparison of aware datetimes in Python compares instants, and is
  modelled by `Int` comparison.  The Python `date` range limits
  (years 1..9999) are outside the model.
* An IANA timezone is modelled by its fixed UTC offset in seconds; the zone
  database (`zoneinfo.ZoneInfo`) is a parameter `zdb : String → Option Int`,
  `none` meaning the key is unknown (in which case the `ZoneInfo` constructor
  raises `ZoneInfoNotFoundError`).  Daylight-saving transitions are outside
  the model: the spec (§4.B.5) delegates DST resolution to the zone library
  and no claim quantifies over DST behaviour.
* Fallible Python code is modelled with `Except PyExn`: a `.error` value
  means the Python code raises an exception (or, for `nonTermination`, never
  returns).
* The `times_hhmm` database column is a nullable text column holding a JSON
  encoding (`models.py` line 40).  The scheduler only observes it through
  `json.loads` followed by an `isinstance(list)` check and per-entry `str()`
  (`scheduler.py` lines 44-50): its behaviour factors through "did the column
  hold non-empty text that decodes to a JSON list, and if so which list of
  strings".  The model therefore stores `Option (List String)`: `some l` when
  the column text is non-empty and decodes to a list whose stringified
  entries are `l`, `none` when the column is NULL, empty, undecodable, or
  decodes to a non-list.
* UUID primary keys are modelled as `Nat`.
-/

/-- Python exceptions that the modelled code can raise.  `nonTermination`
marks a spot where the Python code loops forever (not an exception, but like
one it means no value is returned). -/
inductive PyExn where
  | zoneInfoNotFound
  | attributeError
  | nonTermination
deriving DecidableEq, Repr

/-- `ScheduleType` from `models.py` lines 15-18. -/
inductive ScheduleType where
  | daily
  | interval
  | once
deriving DecidableEq, Repr

/-- The `schedules` row from `models.py` lines 25-63 (see the module comment
for how each column type is modelled). -/
structure Schedule where
  id : Nat
  token : String
  user_id : Int
  scenario_id : Int
  type : ScheduleType
  time_hhmm : Option String
  timezone : Option String
  times_hhmm : Option (List String)
  every_minutes : Option Int
  run_at : Option Int
  active : Bool
  next_run_at : Option Int
  locked_until : Option Int
  last_run_at : Option Int
  last_status_code : Option Int
  last_error : Option String
  created_at : Int
  updated_at : Int
deriving DecidableEq, Repr

/-- Python `str.split(":")`: split at every colon, keeping empty parts
(`"".split(":") == [""]`). -/
def split_colon : List Char → List (List Char)
  | [] => [[]]
  | c :: cs =>
    let r := split_colon cs
    if c = ':' then [] :: r
    else match r with
      | [] => [[c]]
      | p :: ps => (c :: p) :: ps

/-- Strip leading and trailing whitespace, as `int(str)` does before
parsing. -/
def trim_chars (l : List Char) : List Char :=
  ((l.dropWhile Char.isWhitespace).reverse.dropWhile Char.isWhitespace).reverse

/-- Numeric value of a digit run. -/
def digits_val (l : List Char) : Int :=
  l.foldl (fun acc c => acc * 10 + ((c.toNat : Int) - 48)) 0

/-- Python `int(str)`: optional surrounding whitespace, optional sign, then
a non-empty digit run.  (Python additionally accepts underscore digit
separators and non-ASCII digits; those inputs are outside the model and no
claim depends on them.) -/
def py_int_chars (l : List Char) : Option Int :=
  let t := trim_chars l
  let p : Bool × List Char :=
    match t with
    | '-' :: r => (true, r)
    | '+' :: r => (false, r)
    | r => (false, r)
  if p.2.length > 0 && p.2.all Char.isDigit then
    some (if p.1 then -(digits_val p.2) else digits_val p.2)
  else none

/-- `scheduler.py` lines 58-63: `hh, mm = str(t).split(":")` (exactly two
parts, else `ValueError`) then `time(hour=int(hh), minute=int(mm))` (raises
unless 0 ≤ hh ≤ 23 and 0 ≤ mm ≤ 59).  A parsed `time` is modelled by its
second-of-day `hh*3600 + mm*60`, which is order-isomorphic to `(hh, mm)`
lexicographic comparison, the order `sorted` uses on `time` values. -/
def parse_hhmm (t : String) : Option Int :=
  match split_colon t.toList with
  | [hs, ms] =>
    match py_int_chars hs, py_int_chars ms with
    | some h, some m =>
      if 0 ≤ h ∧ h ≤ 23 ∧ 0 ≤ m ∧ m ≤ 59 then some (h * 3600 + m * 60) else none
    | _, _ => none
  | _ => none

/-- `scheduler.py` lines 43-52: candidate time strings come from the decoded
`times_hhmm` JSON list when that is non-empty, else from `[time_hhmm]` when
`time_hhmm` is truthy (a non-empty string). -/
def raw_times (s : Schedule) : List String :=
  let times : List String :=
    match s.times_hhmm with
    | some l => l
    | none => []
  if times.isEmpty then
    match s.time_hhmm with
    | some t => if t.isEmpty then [] else [t]
    | none => []
  else times

/-- `scheduler.py` line 55: `s.timezone or "UTC"` (NULL or empty string fall
back to `"UTC"`). -/
def tz_name (s : Schedule) : String :=
  match s.timezone with
  | some z => if z.isEmpty then "UTC" else z
  | none => "UTC"

/-- `scheduler.py` lines 37-39: `while nxt <= now: nxt += timedelta(minutes=
every_minutes)`, with `m60` the step in seconds.  The `0 < m60` conjunct in
the guard exists only to make the recursion well-founded; callers reach this
function with `0 < m60`, or with a negative `m60` for which the Python loop
body is never entered (so the guard conjunct is never the deciding one). -/
def catch_up (m60 now nxt : Int) : Int :=
  if nxt ≤ now ∧ 0 < m60 then catch_up m60 now (nxt + m60) else nxt
termination_by (now + 1 - nxt).toNat
decreasing_by omega

/-- `scheduler.py` line 70 and 72: `datetime.combine(local_now.date(), tt,
tzinfo=tz).astimezone(UTC)` as an instant, for candidate second-of-day `tt`
and zone offset `off`; `local_now.date()` is the floor-by-day of the local
wall clock `now + off`. -/
def daily_candidate_today (now off tt : Int) : Int :=
  ((now + off).fdiv 86400) * 86400 + tt - off

/-- `scheduler.py` line 75: the same candidate on `local_now.date() +
timedelta(days=1)`. -/
def daily_candidate_tomorrow (now off tt : Int) : Int :=
  ((now + off).fdiv 86400 + 1) * 86400 + tt - off

/-- `compute_next_run_at` from `scheduler.py` lines 25-78, parametrised by
the zone database `zdb`.  `.ok none` is Python `None`; `.error` marks a raise
(`ZoneInfoNotFound` at line 55 for an unknown zone) or, for a negative
`every_minutes` whose catch-up loop is entered, non-termination.  In the
daily branch, matching on the sorted list being empty is equivalent to the
source's `if not parsed_times: return None` (line 64) since `mergeSort` is a
permutation. -/
def compute_next_run_at (zdb : String → Option Int) (s : Schedule) (now : Int) :
    Except PyExn (Option Int) :=
  if !s.active then .ok none
  else match s.type with
  | .once => .ok s.run_at
  | .interval =>
    match s.every_minutes with
    | none => .ok none
    | some m =>
      if m = 0 then .ok none
      else
        let base := s.next_run_at.getD now
        let m60 := 60 * m
        if m < 0 ∧ base + m60 ≤ now then .error .nonTermination
        else .ok (some (catch_up m60 now (base + m60)))
  | .daily =>
    let times := raw_times s
    if times.isEmpty then .ok none
    else match zdb (tz_name s) with
    | none => .error .zoneInfoNotFound
    | some off =>
      match (times.filterMap parse_hhmm).mergeSort (fun a b => decide (a ≤ b)) with
      | [] => .ok none
      | t0 :: rest =>
        match (t0 :: rest).find? (fun tt => decide (now < daily_candidate_today now off tt)) with
        | some tt => .ok (some (daily_candidate_today now off tt))
        | none => .ok (some (daily_candidate_tomorrow now off t0))

/-- `DueSchedule` from `scheduler.py` lines 81-87. -/
structure DueSchedule where
  id : Nat
  token : String
  user_id : Int
  scenario_id : Int
  type : ScheduleType
deriving DecidableEq, Repr

/-- The tuple returned by the claim statement (`scheduler.py` line 174). -/
def due_of (s : Schedule) : DueSchedule :=
  ⟨s.id, s.token, s.user_id, s.scenario_id, s.type⟩

/-- `due_filter` from `scheduler.py` lines 151-156: a row is claimable iff
`active ∧ next_run_at ≠ NULL ∧ next_run_at ≤ now ∧ (locked_until = NULL ∨
locked_until ≤ now)`. -/
def claimable (s : Schedule) (now : Int) : Bool :=
  s.active
    && (match s.next_run_at with
        | some t => decide (t ≤ now)
        | none => false)
    && (match s.locked_until with
        | none => true
        | some l => decide (l ≤ now))

/-- Sort key for `ORDER BY next_run_at ASC` (`scheduler.py` line 162).  Every
row the query sorts satisfies `due_filter`, so `next_run_at` is present and
the default is never the deciding value. -/
def nra_key (s : Schedule) : Int :=
  s.next_run_at.getD 0

/-- The `pick_stmt` query of `scheduler.py` lines 159-165, returning the
selected rows (their ids are what the query projects): up to `batch` rows
satisfying `due_filter`, ordered by `next_run_at` ascending.  SQL leaves the
relative order of ties unspecified; `mergeSort` realises one admissible
order. -/
def peek_due_rows (db : List Schedule) (batch : Nat) (now : Int) : List Schedule :=
  (((db.filter (claimable · now)).mergeSort
      (fun a b => decide (nra_key a ≤ nra_key b))).take batch)

/-- The ids projected by `pick_stmt` (`select(Schedule.id)`). -/
def peek_due (db : List Schedule) (batch : Nat) (now : Int) : List Nat :=
  (peek_due_rows db batch now).map (·.id)

/-- The condition of `claim_stmt` (`scheduler.py` line 172): `Schedule.id.
in_(ids)` and `due_filter` re-evaluated at the same `now`. -/
def claim_hits (ids : List Nat) (now : Int) (r : Schedule) : Bool :=
  decide (r.id ∈ ids) && claimable r now

/-- The atomic claim statement `claim_stmt` of `scheduler.py` lines 170-178:
`UPDATE schedules SET locked_until = lease_until WHERE id IN ids AND
due_filter RETURNING (id, token, user_id, scenario_id, type)`, committed.
Returns the updated table and the returned tuples (in table order; SQL does
not fix the order of `RETURNING`). -/
def claim (db : List Schedule) (ids : List Nat) (lease_until now : Int) :
    List Schedule × List DueSchedule :=
  (db.map (fun r => if claim_hits ids now r then { r with locked_until := some lease_until } else r),
   (db.filter (claim_hits ids now)).map due_of)

/-- `SchedulerWorker._lock_and_fetch_due` (`scheduler.py` lines 147-180):
peek up to `batch` due ids, then claim exactly those ids with
`lease_until = now + lease_seconds`. -/
def lock_and_fetch_due (db : List Schedule) (batch : Nat) (lease_seconds now : Int) :
    List Schedule × List DueSchedule :=
  let ids := peek_due db batch now
  if ids.isEmpty then (db, [])
  else claim db ids (now + lease_seconds) now

/-- The outcome of one dispatch as observed by `_execute` (`scheduler.py`
lines 194-200): either an HTTP response was received (any status), or the
retry-exhausted transport exception escaped; `text` is the textual
representation `repr(e)` of that final exception. -/
inductive FireOutcome where
  | response (status : Int) (body : String)
  | transportError (text : String)
deriving DecidableEq, Repr

/-- `status_code` as computed by `_execute` lines 191-200: the response
status, or NULL when the dispatch raised. -/
def outcome_status : FireOutcome → Option Int
  | .response st _ => some st
  | .transportError _ => none

/-- `err` as computed by `_execute` lines 191-200: NULL for a response with
status < 400, `"HTTP <status>: <first 1000 chars of body>"` for status ≥ 400
(line 198), and the exception text for a transport failure (line 200). -/
def outcome_error : FireOutcome → Option String
  | .response st body =>
    if 400 ≤ st then some ("HTTP " ++ toString st ++ ": " ++ body.take 1000) else none
  | .transportError text => some text

/-- The field updates of `_execute` lines 218-221, applied to the fetched
row before the per-type branch. -/
def fire_update (s : Schedule) (o : FireOutcome) (now : Int) : Schedule :=
  { s with
    last_run_at := some now
    last_status_code := outcome_status o
    last_error := outcome_error o
    locked_until := none }

/-- Replace the row with primary key `sid` (the ORM mutates the fetched row
in place; ids are a primary key, so at most one row matches). -/
def update_row (db : List Schedule) (sid : Nat) (s' : Schedule) : List Schedule :=
  db.map (fun r => if r.id = sid then s' else r)

/-- The post-fire writeback of `_execute` (`scheduler.py` lines 213-229): in
a fresh session, fetch the row by id (`session.get`; no row → no change),
set `last_run_at`, `last_status_code`, `last_error`, clear `locked_until`;
for `once` also deactivate and clear `next_run_at`, otherwise recompute
`next_run_at` at `now`.  If the recompute raises (unknown zone), the
exception escapes `_execute` before `commit`, the session rolls back, and
the table is unchanged — modelled by propagating the error. -/
def execute_writeback (zdb : String → Option Int) (db : List Schedule) (sid : Nat)
    (o : FireOutcome) (now : Int) : Except PyExn (List Schedule) :=
  match db.find? (fun r => r.id == sid) with
  | none => .ok db
  | some s =>
    let s1 := fire_update s o now
    if s1.type = .once then
      .ok (update_row db sid { s1 with active := false, next_run_at := none })
    else
      match compute_next_run_at zdb s1 now with
      | .error e => .error e
      | .ok nra => .ok (update_row db sid { s1 with next_run_at := nra })

/-- An HTTP response (`httpx.Response`) as the dispatcher observes it. -/
structure HttpResp where
  status : Int
  body : String
deriving DecidableEq, Repr

/-- The attempt loop of `_request_with_retries` (`scheduler.py` lines
235-242), structurally recursive on the number of attempts remaining.
`net i` is the outcome of the 0-based attempt `i`: a response, or the
textual representation of the transport exception it raised.  Returns the
overall result, the list of attempt indices actually tried, and the list of
back-off sleeps (in seconds) performed between attempts.  The `remaining =
0` base case models the fall-through `raise last_exc or RuntimeError(...)`
of line 244, reachable only when the `for` loop runs zero times. -/
def req_go (net : Nat → Except String HttpResp) (i : Nat) :
    Nat → Except String HttpResp × List Nat × List ℚ
  | 0 => (.error "RuntimeError: unexpected retry flow", [], [])
  | r + 1 =>
    match net i with
    | .ok resp => (.ok resp, [i], [])
    | .error e =>
      if r = 0 then (.error e, [i], [])
      else
        let p := req_go net (i + 1) r
        (p.1, i :: p.2.1, (1 / 2 : ℚ) * 2 ^ i :: p.2.2)

/-- `_request_with_retries` (`scheduler.py` lines 231-244): `attempts =
http_retries + 1` total attempts starting at index 0. -/
def request_with_retries (net : Nat → Except String HttpResp) (http_retries : Nat) :
    Except String HttpResp × List Nat × List ℚ :=
  req_go net 0 (http_retries + 1)

/-- The JSON fields a client may send in the body of `POST /schedules/daily`
(spec §6: `{token, user_id, scenario_id, time_hhmm?, times_hhmm?,
timezone? = "UTC"}`); `none` = key absent. -/
structure DailyBody where
  token : Option String
  user_id : Option Int
  scenario_id : Option Int
  time_hhmm : Option String
  times_hhmm : Option (List String)
  timezone : Option String
deriving Repr

/-- `CreateDailySchedule` from `schemas.py` lines 20-34 (with the `token`,
`scenario_id`, `user_id` fields inherited from `ScheduleBase`, lines 14-17).
Note: the pydantic model declares no `times_hhmm` field. -/
structure CreateDailySchedule where
  token : String
  scenario_id : Int
  user_id : Int
  time_hhmm : String
  timezone : String
deriving DecidableEq, Repr

/-- `_HHMM_RE` of `schemas.py` line 11, the regex `^\d{2}:\d{2}$` (modelled
over ASCII digits; Python `\d` additionally matches non-ASCII digits, which
no claim exercises). -/
def hhmm_re (v : String) : Bool :=
  match v.toList with
  | [a, b, c, d, e] => a.isDigit && b.isDigit && (c = ':') && d.isDigit && e.isDigit
  | _ => false

/-- The `_validate_hhmm` field validator of `schemas.py` lines 25-34: the
regex, then `int` conversion of the two parts, then the 0-23 / 0-59 range
check. -/
def validate_hhmm (v : String) : Bool :=
  hhmm_re v &&
    (match split_colon v.toList with
     | [hs, ms] =>
       match py_int_chars hs, py_int_chars ms with
       | some h, some m => decide (0 ≤ h ∧ h ≤ 23 ∧ 0 ≤ m ∧ m ≤ 59)
       | _, _ => false
     | _ => false)

/-- Pydantic validation of a request body against `CreateDailySchedule`:
`token` is required with length 1..256, `user_id` and `scenario_id` are
required with value ≥ 1, `time_hhmm` is required (the model declares it with
no default) and must pass `_validate_hhmm`, `timezone` defaults to `"UTC"`.
Undeclared body keys — in particular `times_hhmm` — are ignored (pydantic's
default `extra="ignore"`).  `none` models a 422 validation-error response. -/
def parse_create_daily (b : DailyBody) : Option CreateDailySchedule :=
  match b.token, b.user_id, b.scenario_id, b.time_hhmm with
  | some tok, some uid, some sid, some t =>
    if 1 ≤ tok.length ∧ tok.length ≤ 256 ∧ 1 ≤ uid ∧ 1 ≤ sid ∧ validate_hhmm t = true then
      some ⟨tok, sid, uid, t, b.timezone.getD "UTC"⟩
    else none
  | _, _, _, _ => none

/-- How a request to the API ends, from the client's point of view. -/
inductive ApiResult where
  | ok
  | unprocessable
  | httpError (status : Nat) (detail : String)
  | serverError (e : PyExn)
deriving DecidableEq, Repr

/-- The `POST /schedules/daily` endpoint, `create_daily` of `main.py` lines
86-145, paired with the table it leaves behind.  A body that fails pydantic
validation is answered 422 before the handler runs.  A body that validates
reaches line 90, `times = payload.times_hhmm` — but `CreateDailySchedule`
(`schemas.py` lines 20-34) declares no `times_hhmm` field, and accessing an
undeclared attribute on a pydantic model raises `AttributeError`, which
FastAPI surfaces as HTTP 500.  This happens before any store session is
opened, so the table is unchanged.  (`models.py` line 40, the
`ensure_schema_migrations` helper of `db.py`, and the rest of the handler
all show the field was meant to exist on the schema; the handler body from
line 91 on is unreachable.) -/
def create_daily (b : DailyBody) (db : List Schedule) : ApiResult × List Schedule :=
  match parse_create_daily b with
  | none => (.unprocessable, db)
  | some _p => (.serverError .attributeError, db)

theorem parse_hhmm_nonneg (t : String) (v : Int) (h : parse_hhmm t = some v) : 0 ≤ v := by
  unfold parse_hhmm at h
  split at h
  · split at h
    · split at h
      · simp only [Option.some.injEq] at h
        omega
      · simp at h
    · simp at h
  · simp at h

theorem catch_up_gt (m60 now nxt : Int) (h : 0 < m60) : now < catch_up m60 now nxt := by
  induction nxt using catch_up.induct m60 now with
  | case1 x hx ih => rw [catch_up, if_pos hx]; exact ih
  | case2 x hx => rw [catch_up, if_neg hx]; omega

theorem catch_up_steps (m60 now nxt : Int) : ∃ j : Nat, catch_up m60 now nxt = nxt + j * m60 := by
  induction nxt using catch_up.induct m60 now with
  | case1 x hx ih =>
    obtain ⟨j, hj⟩ := ih
    exact ⟨j + 1, by rw [catch_up, if_pos hx, hj]; push_cast; ring⟩
  | case2 x hx => exact ⟨0, by rw [catch_up, if_neg hx]; simp⟩

theorem catch_up_min (m60 now nxt : Int) (h : 0 < m60) :
    ∀ j : Nat, nxt + j * m60 < catch_up m60 now nxt → nxt + j * m60 ≤ now := by
  induction nxt using catch_up.induct m60 now with
  | case1 x hx ih =>
    intro j hj
    match j with
    | 0 => simpa using hx.1
    | j + 1 =>
      have := ih j (by rw [catch_up, if_pos hx] at hj; push_cast at hj ⊢; linarith)
      push_cast at this ⊢; linarith
  | case2 x hx =>
    intro j hj
    rw [catch_up, if_neg hx] at hj
    have hneg : (j : Int) * m60 < 0 := by linarith
    rcases Nat.eq_zero_or_pos j with h0 | h0
    · simp [h0] at hj
    · nlinarith [hx, hneg]

/-- C1: for every schedule `s` and instant `now`, whenever
`compute_next_run_at s now` returns a value it is strictly greater than
`now`, except that a `once` schedule gets `run_at` back verbatim (possibly
in the past) and an inactive schedule gets no value. -/
theorem next_run_strictly_future (zdb : String → Option Int) (s : Schedule) (now : Int) :
    (s.active = false → compute_next_run_at zdb s now = .ok none) ∧
    (s.active = true → s.type = .once → compute_next_run_at zdb s now = .ok s.run_at) ∧
    (s.type ≠ .once → ∀ t, compute_next_run_at zdb s now = .ok (some t) → now < t) := by
  refine ⟨fun ha => by simp [compute_next_run_at, ha], fun ha ht => by simp [compute_next_run_at, ha, ht], ?_⟩
  intro htype t hok
  unfold compute_next_run_at at hok
  rcases ha : s.active with _ | _
  · simp [ha] at hok
  · simp only [ha, Bool.not_true, Bool.false_eq_true, if_false] at hok
    split at hok
    · exact absurd rfl (by rename_i heq; rw [heq] at htype; exact htype)
    · -- interval
      split at hok
      · simp at hok
      · rename_i m hm
        split at hok
        · simp at hok
        · rename_i hm0
          split at hok
          · simp at hok
          · rename_i hguard
            simp only [Except.ok.injEq, Option.some.injEq] at hok
            subst hok
            rcases lt_trichotomy m 0 with hneg | hz | hpos
            · have hbig : now < s.next_run_at.getD now + 60 * m := by
                by_contra hc
                exact hguard ⟨hneg, by omega⟩
              rw [catch_up, if_neg (by omega)]
              exact hbig
            · exact absurd hz hm0
            · exact catch_up_gt _ _ _ (by omega)
    · -- daily
      split at hok
      · simp at hok
      · split at hok
        · simp at hok
        · rename_i off hoff
          split at hok
          · simp at hok
          · rename_i t0 rest hsorted
            split at hok
            · rename_i tt hfind
              simp only [Except.ok.injEq, Option.some.injEq] at hok
              subst hok
              have := List.find?_some hfind
              simpa using this
            · rename_i hfind
              simp only [Except.ok.injEq, Option.some.injEq] at hok
              subst hok
              have ht0mem : t0 ∈ (raw_times s |>.filterMap parse_hhmm) := by
                have hmem : t0 ∈ t0 :: rest := List.mem_cons_self _ _
                rw [← hsorted] at hmem
                exact List.mem_mergeSort.mp hmem
              obtain ⟨str, _, hp⟩ := List.mem_filterMap.mp ht0mem
              have ht0 : 0 ≤ t0 := parse_hhmm_nonneg _ _ hp
              have hfd : now + off < ((now + off).fdiv 86400 + 1) * 86400 := by
                rw [Int.fdiv_eq_ediv _ (by norm_num)]
                exact Int.lt_ediv_add_one_mul_self _ (by norm_num)
              unfold daily_candidate_tomorrow
              omega

def sched0 : Schedule :=
  ⟨0, "t", 1, 1, .once, none, none, none, none, none, true, none, none, none, none, none, 0, 0⟩

def zdb0 : String → Option Int :=
  fun z => if z = "UTC" then some 0 else none

def sched_interval1 : Schedule :=
  { sched0 with type := .interval, every_minutes := some 1, next_run_at := some 100 }

theorem next_run_strictly_future_witness :
    sched_interval1.type ≠ .once ∧
    compute_next_run_at zdb0 sched_interval1 100 = .ok (some 160) ∧ (100 : Int) < 160 := by
  have hcomp : compute_next_run_at zdb0 sched_interval1 100 = .ok (some 160) := by
    simp [compute_next_run_at, sched_interval1, sched0, catch_up]
  exact ⟨by decide, hcomp,
    (next_run_strictly_future zdb0 sched_interval1 100).2.2 (by decide) 160 hcomp⟩

/-- Scenario S2 of the spec: `every_minutes = 5`, `next_run_at =
2025-01-10T10:00:00Z`.  Epoch seconds: 2025-01-10T10:00:00Z = 1736503200,
now = 2025-01-10T10:17:30Z = 1736504250, expected next fire
2025-01-10T10:20:00Z = 1736504400. -/
def sched_s2 : Schedule :=
  { sched0 with type := .interval, every_minutes := some 5, next_run_at := some 1736503200 }

set_option maxRecDepth 4000 in
theorem catch_up_s2 : catch_up 300 1736504250 1736503500 = 1736504400 := by
  rw [catch_up]; norm_num
  rw [catch_up]; norm_num
  rw [catch_up]; norm_num
  rw [catch_up]; norm_num

/-- C2: for an active interval schedule with `every_minutes = m ≥ 1`,
`compute_next_run_at` returns `base + k·m` minutes for the smallest `k ≥ 1`
making the result strictly greater than `now`, where `base` is `next_run_at`
if present and otherwise `now`; and at the spec's S2 instance (`m = 5`,
`next_run_at = 2025-01-10T10:00:00Z`, `now = 2025-01-10T10:17:30Z`) the
result is `2025-01-10T10:20:00Z` — missed fires collapse to one. -/
theorem interval_next_minimal_step (zdb : String → Option Int) (s : Schedule) (now m : Int)
    (ha : s.active = true) (ht : s.type = .interval)
    (hm : s.every_minutes = some m) (h1 : 1 ≤ m) :
    (∃ k : Nat, 1 ≤ k ∧
      compute_next_run_at zdb s now =
        .ok (some (s.next_run_at.getD now + (k : Int) * (60 * m))) ∧
      now < s.next_run_at.getD now + (k : Int) * (60 * m) ∧
      ∀ j : Nat, 1 ≤ j → j < k → s.next_run_at.getD now + (j : Int) * (60 * m) ≤ now) ∧
    compute_next_run_at zdb0 sched_s2 1736504250 = .ok (some 1736504400) := by
  constructor
  · have hm0 : ¬(m = 0) := by omega
    have hguard : ¬(m < 0 ∧ s.next_run_at.getD now + 60 * m ≤ now) := by
      rintro ⟨hc, -⟩; omega
    have hcomp : compute_next_run_at zdb s now =
        .ok (some (catch_up (60 * m) now (s.next_run_at.getD now + 60 * m))) := by
      unfold compute_next_run_at
      simp only [ha, ht, hm, Bool.not_true, Bool.false_eq_true, if_false, hm0, hguard]
    have hpos : (0 : Int) < 60 * m := by omega
    obtain ⟨j, hj⟩ := catch_up_steps (60 * m) now (s.next_run_at.getD now + 60 * m)
    refine ⟨j + 1, by omega, ?_, ?_, ?_⟩
    · rw [hcomp, hj]; push_cast; ring_nf
    · have := catch_up_gt (60 * m) now (s.next_run_at.getD now + 60 * m) hpos
      rw [hj] at this; push_cast at this ⊢; linarith
    · intro j' hj1 hjk
      have hlt : s.next_run_at.getD now + 60 * m + ((j' - 1 : Nat) : Int) * (60 * m) <
          catch_up (60 * m) now (s.next_run_at.getD now + 60 * m) := by
        rw [hj]
        have : ((j' - 1 : Nat) : Int) < (j : Int) := by
          have : j' - 1 < j := by omega
          exact_mod_cast this
        nlinarith [hpos]
      have := catch_up_min (60 * m) now (s.next_run_at.getD now + 60 * m) hpos (j' - 1) hlt
      have hcast : ((j' : Nat) : Int) = ((j' - 1 : Nat) : Int) + 1 := by
        have : j' - 1 + 1 = j' := by omega
        exact_mod_cast (by omega : (j' : Int) = ((j' - 1 : Nat) : Int) + 1)
      nlinarith [this, hcast]
  · have hcomp : compute_next_run_at zdb0 sched_s2 1736504250 =
        .ok (some (catch_up 300 1736504250 1736503500)) := by
      unfold compute_next_run_at
      norm_num [sched_s2, sched0]
    rw [hcomp, catch_up_s2]

theorem interval_next_minimal_step_witness :
    sched_s2.active = true ∧ sched_s2.type = .interval ∧
    sched_s2.every_minutes = some 5 ∧
    ∃ k : Nat, 1 ≤ k ∧
      compute_next_run_at zdb0 sched_s2 1736504250 =
        .ok (some (sched_s2.next_run_at.getD 1736504250 + (k : Int) * (60 * 5))) ∧
      (1736504250 : Int) < sched_s2.next_run_at.getD 1736504250 + (k : Int) * (60 * 5) ∧
      ∀ j : Nat, 1 ≤ j → j < k →
        sched_s2.next_run_at.getD 1736504250 + (j : Int) * (60 * 5) ≤ 1736504250 :=
  ⟨rfl, rfl, rfl,
    (interval_next_minimal_step zdb0 sched_s2 1736504250 5 rfl rfl rfl (by norm_num)).1⟩

theorem find_first_min (l : List Int) (p : Int → Bool)
    (hs : l.Pairwise (· ≤ ·)) (x : Int) (hf : l.find? p = some x) :
    ∀ y ∈ l, p y = true → x ≤ y := by
  induction l with
  | nil => simp at hf
  | cons a tl ih =>
    rcases List.pairwise_cons.mp hs with ⟨hhead, htail⟩
    rcases hpa : p a with _ | _
    · rw [List.find?_cons_of_neg _ (by simp [hpa])] at hf
      intro y hy hpy
      rcases List.mem_cons.mp hy with rfl | hy'
      · rw [hpa] at hpy; exact absurd hpy (by simp)
      · exact ih htail hf y hy' hpy
    · rw [List.find?_cons_of_pos _ hpa] at hf
      obtain rfl : a = x := by injection hf
      intro y hy _
      rcases List.mem_cons.mp hy with rfl | hy'
      · exact le_refl _
      · exact hhead y hy'

theorem mergeSort_int_pairwise (l : List Int) :
    (l.mergeSort (fun a b => decide (a ≤ b))).Pairwise (· ≤ ·) := by
  have h := @List.sorted_mergeSort Int (fun a b : Int => decide (a ≤ b))
    (fun a b c hab hbc => by simp at hab hbc ⊢; omega)
    (fun a b => by simp [Bool.or_eq_true]; omega) l
  exact h.imp (by simp)

/-- C3: for an active daily schedule whose zone resolves, the candidate
local times are the entries of the decoded `times_hhmm` list if non-empty,
else `[time_hhmm]` (that is `raw_times`); entries that fail to parse as
`HH:MM` are silently dropped (`filterMap parse_hhmm`) and when none parse
the result is empty; otherwise the result is the least candidate on
`local_now`'s date that is strictly greater than `now`, converted to UTC,
and when no today-candidate qualifies, the least candidate on the next
local date, converted to UTC. -/
theorem daily_next_first_candidate (zdb : String → Option Int) (s : Schedule) (now off : Int)
    (ht : s.type = .daily) (ha : s.active = true) (hz : zdb (tz_name s) = some off) :
    ((raw_times s).filterMap parse_hhmm = [] → compute_next_run_at zdb s now = .ok none) ∧
    (∀ c₀ ∈ (raw_times s).filterMap parse_hhmm,
      ∃ t, compute_next_run_at zdb s now = .ok (some t) ∧
        ((∃ tt ∈ (raw_times s).filterMap parse_hhmm,
            t = daily_candidate_today now off tt ∧ now < t ∧
            ∀ tt' ∈ (raw_times s).filterMap parse_hhmm,
              now < daily_candidate_today now off tt' → tt ≤ tt') ∨
         ((∀ tt ∈ (raw_times s).filterMap parse_hhmm, daily_candidate_today now off tt ≤ now) ∧
          ∃ tt ∈ (raw_times s).filterMap parse_hhmm,
            t = daily_candidate_tomorrow now off tt ∧
            ∀ tt' ∈ (raw_times s).filterMap parse_hhmm, tt ≤ tt'))) := by
  constructor
  · intro hnil
    unfold compute_next_run_at
    rcases hre : (raw_times s).isEmpty with _ | _
    · simp only [ha, ht, Bool.not_true, Bool.false_eq_true, if_false, hre, hz, hnil,
        List.mergeSort_nil]
    · simp [ha, ht, hre]
  · intro c₀ hc₀
    have hrne : (raw_times s).isEmpty = false := by
      rcases hr : raw_times s with _ | ⟨a, tl⟩
      · rw [hr] at hc₀; simp at hc₀
      · simp
    have hpair := mergeSort_int_pairwise ((raw_times s).filterMap parse_hhmm)
    obtain ⟨t0, rest, hsorted⟩ :
        ∃ t0 rest, ((raw_times s).filterMap parse_hhmm).mergeSort
          (fun a b => decide (a ≤ b)) = t0 :: rest := by
      rcases hms : ((raw_times s).filterMap parse_hhmm).mergeSort
          (fun a b => decide (a ≤ b)) with _ | ⟨t0, rest⟩
      · have : c₀ ∈ ((raw_times s).filterMap parse_hhmm).mergeSort
            (fun a b => decide (a ≤ b)) := List.mem_mergeSort.mpr hc₀
        rw [hms] at this
        simp at this
      · exact ⟨t0, rest, rfl⟩
    rw [hsorted] at hpair
    have hmem_iff : ∀ y : Int, y ∈ t0 :: rest ↔ y ∈ (raw_times s).filterMap parse_hhmm := by
      intro y
      rw [← hsorted]
      exact List.mem_mergeSort
    unfold compute_next_run_at
    simp only [ha, ht, Bool.not_true, Bool.false_eq_true, if_false, hrne, hz, hsorted]
    rcases hfind : (t0 :: rest).find?
        (fun tt => decide (now < daily_candidate_today now off tt)) with _ | tt
    · -- no candidate today: tomorrow's earliest
      refine ⟨daily_candidate_tomorrow now off t0, rfl, Or.inr ⟨?_, t0, ?_, rfl, ?_⟩⟩
      · intro tt htt
        have := List.find?_eq_none.mp hfind tt ((hmem_iff tt).mpr htt)
        simpa using this
      · exact (hmem_iff t0).mp (List.mem_cons_self _ _)
      · intro tt' htt'
        rcases List.mem_cons.mp ((hmem_iff tt').mpr htt') with rfl | h'
        · exact le_refl _
        · exact (List.pairwise_cons.mp hpair).1 tt' h'
    · -- first candidate today strictly after now
      refine ⟨daily_candidate_today now off tt, rfl, Or.inl ⟨tt, ?_, rfl, ?_, ?_⟩⟩
      · exact (hmem_iff tt).mp (List.mem_of_find?_eq_some hfind)
      · simpa using List.find?_some hfind
      · intro tt' htt' hlt
        exact find_first_min _ _ hpair tt hfind tt' ((hmem_iff tt').mpr htt') (by simpa using hlt)

/-- Scenario S1 of the spec restricted to one day: a UTC daily schedule with
times 09:00 and 21:00; at `now` = 08:00 (28800 s into the day) the next fire
is 09:00 (32400 s). -/
def sched_daily : Schedule :=
  { sched0 with type := .daily, times_hhmm := some ["09:00", "21:00"], timezone := some "UTC" }

theorem daily_next_first_candidate_witness :
    sched_daily.type = .daily ∧ sched_daily.active = true ∧
    zdb0 (tz_name sched_daily) = some 0 ∧
    (32400 : Int) ∈ (raw_times sched_daily).filterMap parse_hhmm ∧
    ∃ t, compute_next_run_at zdb0 sched_daily 28800 = .ok (some t) ∧
      ((∃ tt ∈ (raw_times sched_daily).filterMap parse_hhmm,
          t = daily_candidate_today 28800 0 tt ∧ (28800 : Int) < t ∧
          ∀ tt' ∈ (raw_times sched_daily).filterMap parse_hhmm,
            (28800 : Int) < daily_candidate_today 28800 0 tt' → tt ≤ tt') ∨
       ((∀ tt ∈ (raw_times sched_daily).filterMap parse_hhmm,
            daily_candidate_today 28800 0 tt ≤ 28800) ∧
        ∃ tt ∈ (raw_times sched_daily).filterMap parse_hhmm,
          t = daily_candidate_tomorrow 28800 0 tt ∧
          ∀ tt' ∈ (raw_times sched_daily).filterMap parse_hhmm, tt ≤ tt')) :=
  ⟨rfl, rfl, by decide, by decide,
    (daily_next_first_candidate zdb0 sched_daily 28800 0 rfl rfl (by decide)).2 32400 (by decide)⟩

/-- An active daily schedule whose `timezone` does not name a known IANA
zone (under `zdb0`, the example database knowing only `"UTC"`). -/
def sched_badzone : Schedule :=
  { sched0 with type := .daily, time_hhmm := some "09:00", timezone := some "Mars/Olympus" }

/-- C4 (code bug): the spec says an unknown zone makes the calculator treat
the schedule as non-firing (return `∅` rather than raise), but
`compute_next_run_at` constructs `ZoneInfo(s.timezone or "UTC")` with no
exception handling (`scheduler.py` line 55), so an unknown zone raises
`ZoneInfoNotFoundError` — modelled by the `.error .zoneInfoNotFound`
result — instead of returning `None`. -/
theorem daily_unknown_zone_raises :
    compute_next_run_at zdb0 sched_badzone 0 = .error .zoneInfoNotFound ∧
    compute_next_run_at zdb0 sched_badzone 0 ≠ .ok none := by
  have h : compute_next_run_at zdb0 sched_badzone 0 = .error .zoneInfoNotFound := by rfl
  exact ⟨h, by rw [h]; simp⟩

/-- C5: the claim statement locks and returns exactly those peeked ids that
still satisfy the claimable predicate at `now` (setting `locked_until :=
lease_until`), leaves non-qualifying rows unchanged and returns nothing for
them, and every returned tuple is the `(id, token, user_id, scenario_id,
type)` projection of a qualifying row; the peek query returns at most
`batch` ids, ordered by `next_run_at` ascending, all of claimable rows. -/
theorem claim_exactly_claimable (db : List Schedule) (ids : List Nat)
    (lease_until now : Int) (batch : Nat)
    (hnodup : (db.map Schedule.id).Nodup) :
    (∀ r ∈ db, r.id ∈ ids → claimable r now = true →
      ({ r with locked_until := some lease_until } ∈ (claim db ids lease_until now).1 ∧
        due_of r ∈ (claim db ids lease_until now).2)) ∧
    (∀ r ∈ db, ¬(r.id ∈ ids ∧ claimable r now = true) →
      (r ∈ (claim db ids lease_until now).1 ∧
        ∀ d ∈ (claim db ids lease_until now).2, d.id ≠ r.id)) ∧
    (∀ d ∈ (claim db ids lease_until now).2,
      ∃ r ∈ db, r.id ∈ ids ∧ claimable r now = true ∧ d = due_of r) ∧
    (peek_due db batch now).length ≤ batch ∧
    ((peek_due_rows db batch now).map nra_key).Pairwise (· ≤ ·) ∧
    (∀ i ∈ peek_due db batch now, ∃ r ∈ db, r.id = i ∧ claimable r now = true) := by
  have hits_of : ∀ r : Schedule, r.id ∈ ids → claimable r now = true →
      claim_hits ids now r = true := by
    intro r h1 h2
    simp [claim_hits, h1, h2]
  have not_hits : ∀ r : Schedule, ¬(r.id ∈ ids ∧ claimable r now = true) →
      claim_hits ids now r = false := by
    intro r h
    rcases hh : claim_hits ids now r with _ | _
    · rfl
    · exact absurd (by simpa [claim_hits] using hh) h
  refine ⟨?_, ?_, ?_, ?_, ?_, ?_⟩
  · intro r hr h1 h2
    constructor
    · exact List.mem_map.mpr ⟨r, hr, by rw [if_pos (hits_of r h1 h2)]⟩
    · exact List.mem_map.mpr ⟨r, List.mem_filter.mpr ⟨hr, hits_of r h1 h2⟩, rfl⟩
  · intro r hr h
    constructor
    · exact List.mem_map.mpr ⟨r, hr, by rw [if_neg (by simp [not_hits r h])]⟩
    · intro d hd heq
      obtain ⟨r', hr'f, rfl⟩ := List.mem_map.mp hd
      obtain ⟨hr', hhits⟩ := List.mem_filter.mp hr'f
      have : r' = r := List.inj_on_of_nodup_map hnodup hr' hr heq
      subst this
      rw [not_hits r' h] at hhits
      exact absurd hhits (by simp)
  · intro d hd
    obtain ⟨r', hr'f, rfl⟩ := List.mem_map.mp hd
    obtain ⟨hr', hhits⟩ := List.mem_filter.mp hr'f
    obtain ⟨h1, h2⟩ : r'.id ∈ ids ∧ claimable r' now = true := by
      simpa [claim_hits] using hhits
    exact ⟨r', hr', h1, h2, rfl⟩
  · simp only [peek_due, peek_due_rows, List.length_map, List.length_take]
    exact Nat.min_le_left _ _
  · have hpair := @List.sorted_mergeSort Schedule
      (fun a b : Schedule => decide (nra_key a ≤ nra_key b))
      (fun a b c hab hbc => by simp at hab hbc ⊢; omega)
      (fun a b => by simp [Bool.or_eq_true]; omega)
      (db.filter (claimable · now))
    have htake := hpair.sublist (List.take_sublist batch _)
    exact List.pairwise_map.mpr (htake.imp (by simp))
  · intro i hi
    obtain ⟨r, hr, rfl⟩ := List.mem_map.mp hi
    have hr1 : r ∈ (db.filter (claimable · now)).mergeSort
        (fun a b => decide (nra_key a ≤ nra_key b)) :=
      (List.take_sublist _ _).subset hr
    have hr2 := List.mem_mergeSort.mp hr1
    obtain ⟨hrdb, hcl⟩ := List.mem_filter.mp hr2
    exact ⟨r, hrdb, rfl, hcl⟩

/-- An interval row that is due and unlocked at `now = 50`. -/
def row_due : Schedule :=
  { sched0 with id := 1, type := .interval, every_minutes := some 5, next_run_at := some 10 }

/-- A row whose lease is still held at `now = 50`. -/
def row_leased : Schedule :=
  { sched0 with
    id := 2
    type := .interval
    every_minutes := some 5
    next_run_at := some 20
    locked_until := some 1000 }

/-- `row_due` as the claim statement rewrites it. -/
def row_due_locked : Schedule :=
  { row_due with locked_until := some 100 }

def db_pair : List Schedule := [row_due, row_leased]

theorem claim_exactly_claimable_witness :
    (due_of row_due ∈ (claim db_pair [1, 2] 100 50).2 ∧
      row_due_locked ∈ (claim db_pair [1, 2] 100 50).1) ∧
    (row_leased ∈ (claim db_pair [1, 2] 100 50).1 ∧
      ∀ d ∈ (claim db_pair [1, 2] 100 50).2, d.id ≠ row_leased.id) := by
  have h1 := (claim_exactly_claimable db_pair [1, 2] 100 50 10 (by decide)).1 row_due
    (by decide) (by decide) (by decide)
  have h2 := (claim_exactly_claimable db_pair [1, 2] 100 50 10 (by decide)).2.1 row_leased
    (by decide) (by decide)
  exact ⟨⟨h1.2, h1.1⟩, h2⟩

theorem claim_map_id (db : List Schedule) (ids : List Nat) (l n : Int) :
    ((claim db ids l n).1).map Schedule.id = db.map Schedule.id := by
  simp only [claim, List.map_map]
  apply List.map_congr_left
  intro a _
  by_cases h : claim_hits ids n a = true
  · simp [Function.comp, h]
  · simp [Function.comp, h]

theorem claim_skip (db : List Schedule) (ids : List Nat) (l n : Int) (r : Schedule)
    (hr : r ∈ db) (hf : claim_hits ids n r = false) : r ∈ (claim db ids l n).1 :=
  List.mem_map.mpr ⟨r, hr, by rw [if_neg (by simp [hf])]⟩

theorem claim_mem_updated (db : List Schedule) (ids : List Nat) (l n : Int) (r : Schedule)
    (hr : r ∈ db) (ht : claim_hits ids n r = true) :
    { r with locked_until := some l } ∈ (claim db ids l n).1 :=
  List.mem_map.mpr ⟨r, hr, by rw [if_pos ht]⟩

theorem claim_returns (db : List Schedule) (ids : List Nat) (l n : Int) (r : Schedule)
    (hr : r ∈ db) (ht : claim_hits ids n r = true) : due_of r ∈ (claim db ids l n).2 :=
  List.mem_map.mpr ⟨r, List.mem_filter.mpr ⟨hr, ht⟩, rfl⟩

theorem claim_not_returned (db : List Schedule) (ids : List Nat) (l n : Int) (r : Schedule)
    (hnodup : (db.map Schedule.id).Nodup) (hr : r ∈ db) (hf : claim_hits ids n r = false) :
    ∀ d ∈ (claim db ids l n).2, d.id ≠ r.id := by
  intro d hd heq
  obtain ⟨r', hr'f, rfl⟩ := List.mem_map.mp hd
  obtain ⟨hr', hhits⟩ := List.mem_filter.mp hr'f
  have : r' = r := List.inj_on_of_nodup_map hnodup hr' hr heq
  subst this
  rw [hf] at hhits
  exact absurd hhits (by simp)

/-- One store-level claim invocation: a candidate id set, the lease it
writes and the `now` at which it evaluates the claimable predicate. -/
structure ClaimReq where
  ids : List Nat
  lease_until : Int
  now : Int
deriving DecidableEq, Repr

/-- N claimers racing over the shared table.  The claim of
`_lock_and_fetch_due` is a single atomic `UPDATE … RETURNING` followed by a
commit (`scheduler.py` lines 170-178), and the spec's durability contract
(§4.C) requires the store to execute such statements atomically, so an
arbitrary interleaving of N concurrent claimers is modelled by running the
claim transitions in sequence (in any order — the theorem quantifies over
the list). -/
def run_claims (db : List Schedule) : List ClaimReq → List (List DueSchedule) × List Schedule
  | [] => ([], db)
  | c :: cs =>
    let p := claim db c.ids c.lease_until c.now
    let q := run_claims p.1 cs
    (p.2 :: q.1, q.2)

theorem run_claims_skips (cs : List ClaimReq) : ∀ (db : List Schedule) (r : Schedule),
    (db.map Schedule.id).Nodup → r ∈ db →
    (∀ c ∈ cs, claimable r c.now = false) →
    ∀ ret ∈ (run_claims db cs).1, ret.any (fun d => d.id == r.id) = false := by
  induction cs with
  | nil =>
    intro db r _ _ _ ret hret
    simp [run_claims] at hret
  | cons c cs ih =>
    intro db r hnodup hr hskip ret hret
    have hf : claim_hits c.ids c.now r = false := by
      simp [claim_hits, hskip c (List.mem_cons_self _ _)]
    simp only [run_claims, List.mem_cons] at hret
    rcases hret with rfl | hret
    · apply Bool.eq_false_iff.mpr
      intro hany
      obtain ⟨d, hd, hdid⟩ := List.any_eq_true.mp hany
      exact claim_not_returned db c.ids c.lease_until c.now r hnodup hr hf d hd
        (by simpa using hdid)
    · exact ih (claim db c.ids c.lease_until c.now).1 r
        (by rw [claim_map_id]; exact hnodup)
        (claim_skip db c.ids c.lease_until c.now r hr hf)
        (fun c' hc' => hskip c' (List.mem_cons_of_mem _ hc'))
        ret hret

/-- C6: the claim is mutually exclusive.  With N ≥ 1 concurrent claimers
(`c :: cs`) over a shared candidate id set containing a row that each of
them sees as claimable, and with every claimer's `now` inside every other
claimer's lease (they overlap — no lease among them has expired), exactly
one claimer receives the row and the rest receive no row for that id. -/
theorem claim_mutually_exclusive (db : List Schedule) (c : ClaimReq) (cs : List ClaimReq)
    (r : Schedule)
    (hnodup : (db.map Schedule.id).Nodup)
    (hr : r ∈ db)
    (hids : ∀ x ∈ c :: cs, r.id ∈ x.ids)
    (hcl : ∀ x ∈ c :: cs, claimable r x.now = true)
    (hconc : ∀ x ∈ c :: cs, ∀ y ∈ c :: cs, x.now < y.lease_until) :
    ((run_claims db (c :: cs)).1.countP (fun ret => ret.any (fun d => d.id == r.id))) = 1 := by
  have hhits : claim_hits c.ids c.now r = true := by
    simp [claim_hits, hids c (List.mem_cons_self _ _), hcl c (List.mem_cons_self _ _)]
  have h1 : ((claim db c.ids c.lease_until c.now).2).any (fun d => d.id == r.id) = true :=
    List.any_eq_true.mpr
      ⟨due_of r, claim_returns db c.ids c.lease_until c.now r hr hhits, by simp [due_of]⟩
  have hr1 : { r with locked_until := some c.lease_until } ∈
      (claim db c.ids c.lease_until c.now).1 :=
    claim_mem_updated db c.ids c.lease_until c.now r hr hhits
  have hnodup1 : (((claim db c.ids c.lease_until c.now).1).map Schedule.id).Nodup := by
    rw [claim_map_id]; exact hnodup
  have hskip : ∀ x ∈ cs, claimable { r with locked_until := some c.lease_until } x.now = false := by
    intro x hx
    have hlt : x.now < c.lease_until :=
      hconc x (List.mem_cons_of_mem _ hx) c (List.mem_cons_self _ _)
    simp [claimable, show ¬(c.lease_until ≤ x.now) from by omega]
  have hzero := run_claims_skips cs (claim db c.ids c.lease_until c.now).1
    { r with locked_until := some c.lease_until } hnodup1 hr1 hskip
  simp only [run_claims, List.countP_cons, h1, if_pos rfl]
  rw [List.countP_eq_zero.mpr (fun ret hret => by simp [hzero ret hret])]
  simp

def req_a : ClaimReq := ⟨[1], 100, 50⟩

def req_b : ClaimReq := ⟨[1], 110, 55⟩

theorem claim_mutually_exclusive_witness :
    ((run_claims [row_due] [req_a, req_b]).1.countP
      (fun ret => ret.any (fun d => d.id == row_due.id))) = 1 :=
  claim_mutually_exclusive [row_due] req_a [req_b] row_due (by decide) (by decide)
    (by decide) (by decide) (by decide)

/-- C7: the post-fire writeback sets `last_run_at` to the fire instant,
`last_status_code` to the response status or `∅`, `last_error` to the error
text or `∅` (both as `_execute` computes them from the dispatch outcome),
and clears `locked_until`; a `once` row is additionally deactivated with
`next_run_at` cleared (whatever the outcome), and any other row gets
`next_run_at := compute_next_run_at(row, now)`; all other rows are left
unchanged.  The hypothesis `hok` reflects the claim's presupposition that
the recompute returns (it can only raise for a daily row with an unknown
zone, in which case the session rolls back). -/
theorem postfire_writeback_fields (zdb : String → Option Int) (db : List Schedule)
    (sid : Nat) (o : FireOutcome) (now : Int) (s : Schedule)
    (hfind : db.find? (fun r => r.id == sid) = some s)
    (hok : s.type = .once ∨ ∃ v, compute_next_run_at zdb (fire_update s o now) now = .ok v) :
    ∃ db', execute_writeback zdb db sid o now = .ok db' ∧
      ∃ s', s' ∈ db' ∧ s'.id = sid ∧
        s'.last_run_at = some now ∧
        s'.last_status_code = outcome_status o ∧
        s'.last_error = outcome_error o ∧
        s'.locked_until = none ∧
        (s.type = .once → s'.active = false ∧ s'.next_run_at = none) ∧
        (s.type ≠ .once → compute_next_run_at zdb (fire_update s o now) now = .ok s'.next_run_at) ∧
        (∀ r ∈ db, r.id ≠ sid → r ∈ db') := by
  have hsid : s.id = sid := by
    have := List.find?_some hfind
    simpa using this
  have hmem : s ∈ db := List.mem_of_find?_eq_some hfind
  by_cases htype : s.type = .once
  · have heq : execute_writeback zdb db sid o now =
        .ok (update_row db sid { fire_update s o now with active := false, next_run_at := none }) := by
      simp only [execute_writeback, hfind]
      rw [if_pos (show (fire_update s o now).type = .once from htype)]
    refine ⟨_, heq, { fire_update s o now with active := false, next_run_at := none },
      List.mem_map.mpr ⟨s, hmem, by rw [if_pos hsid]⟩, by simpa [fire_update] using hsid,
      rfl, rfl, rfl, rfl, fun _ => ⟨rfl, rfl⟩, fun h => absurd htype h, ?_⟩
    intro r hr hne
    exact List.mem_map.mpr ⟨r, hr, by rw [if_neg hne]⟩
  · obtain ⟨v, hv⟩ := hok.resolve_left htype
    have heq : execute_writeback zdb db sid o now =
        .ok (update_row db sid { fire_update s o now with next_run_at := v }) := by
      simp only [execute_writeback, hfind]
      rw [if_neg (show ¬((fire_update s o now).type = .once) from htype), hv]
    refine ⟨_, heq, { fire_update s o now with next_run_at := v },
      List.mem_map.mpr ⟨s, hmem, by rw [if_pos hsid]⟩, by simpa [fire_update] using hsid,
      rfl, rfl, rfl, rfl, fun h => absurd h htype, fun _ => hv, ?_⟩
    intro r hr hne
    exact List.mem_map.mpr ⟨r, hr, by rw [if_neg hne]⟩

/-- A due `once` row, as in scenario S3. -/
def row_once_due : Schedule :=
  { sched0 with id := 3, run_at := some 10, next_run_at := some 10 }

theorem postfire_writeback_fields_witness :
    ∃ db', execute_writeback zdb0 [row_once_due] 3 (.response 200 "ok") 12 = .ok db' ∧
      ∃ s', s' ∈ db' ∧ s'.id = 3 ∧
        s'.last_run_at = some 12 ∧
        s'.last_status_code = outcome_status (.response 200 "ok") ∧
        s'.last_error = outcome_error (.response 200 "ok") ∧
        s'.locked_until = none ∧
        (row_once_due.type = .once → s'.active = false ∧ s'.next_run_at = none) ∧
        (row_once_due.type ≠ .once →
          compute_next_run_at zdb0 (fire_update row_once_due (.response 200 "ok") 12) 12 =
            .ok s'.next_run_at) ∧
        (∀ r ∈ [row_once_due], r.id ≠ 3 → r ∈ db') :=
  postfire_writeback_fields zdb0 [row_once_due] 3 (.response 200 "ok") 12 row_once_due
    (by decide) (Or.inl rfl)

theorem range_map_add_succ (i k : Nat) :
    (List.range (k + 1)).map (fun j => i + j) = i :: (List.range k).map (fun j => i + 1 + j) := by
  rw [List.range_succ_eq_map, List.map_cons, List.map_map]
  refine congrArg₂ _ (by omega) ?_
  refine List.map_congr_left (fun j _ => ?_)
  simp [Function.comp]
  omega

theorem range_map_pow_succ (i k : Nat) :
    (List.range (k + 1)).map (fun j => (1 / 2 : ℚ) * 2 ^ (i + j)) =
      (1 / 2 : ℚ) * 2 ^ i :: (List.range k).map (fun j => (1 / 2 : ℚ) * 2 ^ (i + 1 + j)) := by
  rw [List.range_succ_eq_map, List.map_cons, List.map_map]
  refine congrArg₂ _ (by norm_num) ?_
  refine List.map_congr_left (fun j _ => ?_)
  have h : i + (j + 1) = i + 1 + j := by omega
  simp [Function.comp, h]

theorem req_go_tried_len (net : Nat → Except String HttpResp) :
    ∀ (rem i : Nat), ((req_go net i rem).2.1).length ≤ rem := by
  intro rem
  induction rem with
  | zero => intro i; simp [req_go]
  | succ r ih =>
    intro i
    cases hnet : net i with
    | ok resp => simp [req_go, hnet]
    | error e =>
      by_cases h : r = 0
      · simp [req_go, hnet, h]
      · simp only [req_go, hnet, if_neg h, List.length_cons]
        have h2 := ih (i + 1)
        omega

theorem req_go_success (net : Nat → Except String HttpResp) (r : HttpResp) :
    ∀ (k i rem : Nat), k < rem →
    (∀ j, j < k → ∃ e, net (i + j) = .error e) → net (i + k) = .ok r →
    req_go net i rem =
      (.ok r, (List.range (k + 1)).map (fun j => i + j),
        (List.range k).map (fun j => (1 / 2 : ℚ) * 2 ^ (i + j))) := by
  intro k
  induction k with
  | zero =>
    intro i rem hk _ hsucc
    obtain ⟨rr, rfl⟩ : ∃ rr, rem = rr + 1 := ⟨rem - 1, by omega⟩
    have hs : net i = .ok r := by simpa using hsucc
    simp [req_go, hs, List.range_succ]
  | succ k ih =>
    intro i rem hk hfail hsucc
    obtain ⟨rr, rfl⟩ : ∃ rr, rem = rr + 1 := ⟨rem - 1, by omega⟩
    obtain ⟨e, he⟩ := hfail 0 (by omega)
    have he' : net i = .error e := by simpa using he
    have hrr : ¬(rr = 0) := by omega
    have htail := ih (i + 1) rr (by omega)
      (fun j hj => by
        obtain ⟨e', he''⟩ := hfail (j + 1) (by omega)
        exact ⟨e', by rw [show i + 1 + j = i + (j + 1) from by omega]; exact he''⟩)
      (by rw [show i + 1 + k = i + (k + 1) from by omega]; exact hsucc)
    simp only [req_go, he', if_neg hrr, htail]
    rw [range_map_add_succ i (k + 1), range_map_pow_succ i k]

theorem req_go_exhaust (net : Nat → Except String HttpResp) (e : Nat → String) :
    ∀ (rem i : Nat), 0 < rem → (∀ j, j < rem → net (i + j) = .error (e (i + j))) →
    req_go net i rem =
      (.error (e (i + (rem - 1))), (List.range rem).map (fun j => i + j),
        (List.range (rem - 1)).map (fun j => (1 / 2 : ℚ) * 2 ^ (i + j))) := by
  intro rem
  induction rem with
  | zero => intro i h; omega
  | succ rr ih =>
    intro i _ hfail
    have he : net i = .error (e i) := by simpa using hfail 0 (by omega)
    by_cases h0 : rr = 0
    · subst h0
      simp [req_go, he, List.range_succ]
    · have hrr : 0 < rr := by omega
      have htail := ih (i + 1) hrr (fun j hj => by
        have h := hfail (j + 1) (by omega)
        rwa [show i + (j + 1) = i + 1 + j from by omega] at h)
      simp only [req_go, he, if_neg h0, htail]
      rw [show rr + 1 - 1 = rr from by omega,
        show i + 1 + (rr - 1) = i + rr from by omega,
        range_map_add_succ i rr,
        show rr = (rr - 1) + 1 from by omega]
      rw [range_map_pow_succ i (rr - 1)]
      rw [show rr - 1 + 1 - 1 = rr - 1 from by omega]

/-- C8: the dispatcher makes at most `http_retries + 1` HTTP attempts; after
a transport failure on 0-based attempt `i` that is not the last it sleeps
`0.5·2^i` seconds and retries; a transport failure on the last attempt
propagates the final exception, and the writeback then records
`last_status_code = ∅` and `last_error` = the exception text; any received
response — whatever its status — is returned immediately with no further
attempts and no sleeps beyond those already performed. -/
theorem dispatcher_retry_policy (net : Nat → Except String HttpResp) (http_retries : Nat) :
    ((request_with_retries net http_retries).2.1).length ≤ http_retries + 1 ∧
    (∀ k r, k ≤ http_retries → (∀ j, j < k → ∃ e, net j = .error e) → net k = .ok r →
      request_with_retries net http_retries =
        (.ok r, List.range (k + 1), (List.range k).map (fun j => (1 / 2 : ℚ) * 2 ^ j))) ∧
    (∀ e : Nat → String, (∀ j, j ≤ http_retries → net j = .error (e j)) →
      request_with_retries net http_retries =
        (.error (e http_retries), List.range (http_retries + 1),
          (List.range http_retries).map (fun j => (1 / 2 : ℚ) * 2 ^ j))) ∧
    (∀ (s : Schedule) (t : String) (now : Int),
      (fire_update s (.transportError t) now).last_status_code = none ∧
      (fire_update s (.transportError t) now).last_error = some t) := by
  refine ⟨req_go_tried_len net (http_retries + 1) 0, ?_, ?_, fun s t now => ⟨rfl, rfl⟩⟩
  · intro k r hk hfail hsucc
    have h := req_go_success net r k 0 (http_retries + 1) (by omega)
      (fun j hj => by simpa using hfail j hj) (by simpa using hsucc)
    simpa [request_with_retries] using h
  · intro e hfail
    have h := req_go_exhaust net e (http_retries + 1) 0 (by omega)
      (fun j hj => by simpa using hfail j (by omega))
    simpa [request_with_retries] using h

def net_ex : Nat → Except String HttpResp :=
  fun i => if i = 0 then .error "ConnectError: boom" else .ok ⟨200, "ok"⟩

theorem dispatcher_retry_policy_witness :
    request_with_retries net_ex 2 =
      (.ok ⟨200, "ok"⟩, List.range 2, (List.range 1).map (fun j => (1 / 2 : ℚ) * 2 ^ j)) :=
  (dispatcher_retry_policy net_ex 2).2.1 1 ⟨200, "ok"⟩ (by omega)
    (fun j hj => ⟨"ConnectError: boom", by
      have hj0 : j = 0 := by omega
      subst hj0
      rfl⟩) rfl

/-- A body that the schema accepts: `time_hhmm` present and valid (it also
carries `times_hhmm`, which pydantic silently discards). -/
def body_c9 : DailyBody := ⟨some "t", some 1, some 1, some "09:00", some ["10:00"], none⟩

/-- A body carrying only `times_hhmm` — per the spec it should be accepted. -/
def body_no_time : DailyBody := ⟨some "t", some 1, some 1, none, some ["10:00"], none⟩

/-- A body carrying neither time — per the spec it should get a 400. -/
def body_neither : DailyBody := ⟨some "t", some 1, some 1, none, none, none⟩

/-- C9 (code bug): `POST /schedules/daily` never upserts.  A schema-valid
body reaches `times = payload.times_hhmm` (`main.py` line 90) and dies with
`AttributeError` (HTTP 500, table untouched) because `CreateDailySchedule`
(`schemas.py` lines 20-34) declares no `times_hhmm` field; a body carrying
only `times_hhmm` is rejected by pydantic with 422 (`time_hhmm` is a
required field and `times_hhmm` is not a field at all); a body with neither
time is likewise rejected 422 — never the claimed 400, which lives on the
unreachable line 94. -/
theorem create_daily_always_errors :
    create_daily body_c9 [] = (.serverError .attributeError, []) ∧
    create_daily body_no_time [] = (.unprocessable, []) ∧
    create_daily body_neither [] = (.unprocessable, []) ∧
    ∀ st d, (ApiResult.unprocessable : ApiResult) ≠ .httpError st d := by
  refine ⟨by decide, by decide, by decide, ?_⟩
  intro st d h
  exact ApiResult.noConfusion h

/-- A disabled, still-leased daily row for `(token = "t", user_id = 1)`. -/
def row_inactive_daily : Schedule :=
  { sched0 with
    id := 9
    type := .daily
    time_hhmm := some "09:00"
    times_hhmm := some ["09:00"]
    timezone := some "UTC"
    active := false
    locked_until := some 999 }

/-- A schema-valid daily create for the same `(token, user_id)` key. -/
def body_c10 : DailyBody := ⟨some "t", some 1, some 2, some "10:00", none, none⟩

/-- C10 (code bug): a duplicate daily create that matches an existing row
does not re-activate it or release its lease — the handler dies with
`AttributeError` at `main.py` line 90 (see `create_daily`) before opening a
session, so the matched row ends the call still disabled and still leased.
(The re-activation the claim describes is what the unreachable lines
112-129 would do.) -/
theorem create_daily_leaves_inactive_row :
    (row_inactive_daily.type = .daily ∧ row_inactive_daily.token = "t" ∧
      row_inactive_daily.user_id = 1 ∧ body_c10.token = some "t" ∧
      body_c10.user_id = some 1) ∧
    create_daily body_c10 [row_inactive_daily] =
      (.serverError .attributeError, [row_inactive_daily]) ∧
    row_inactive_daily.active = false ∧ row_inactive_daily.locked_until = some 999 := by
  exact ⟨by decide, by decide, rfl, rfl⟩
